import Mathlib

/-!
Verification of the SMTP catch-all test server (src/backend/test-smtp-server.py).

Modelling conventions:
* Python `str` values are lists of Unicode code points (`List Nat`).
* Python `bytes` values are lists of byte values (`List Nat`, each < 256).
* The `data` argument of `process_message` may be `bytes` or `str` (`PyData`).
* The append-only log file is a list of code points; appending is pure
  list concatenation.  A possible write failure (disk full, permission
  error) is modelled by a boolean `writeOk` argument: the code contains
  no try/except, so a failing write makes the call raise, modelled as
  `Except.error ()`.
-/

/-- State of the incremental UTF-8 decoder while inside a multi-byte
sequence: how many continuation bytes are still needed, the code point
accumulated so far, and the admissible range for the next byte. -/
structure MB where
  need : Nat
  acc : Nat
  lo : Nat
  hi : Nat
deriving DecidableEq, Repr

/-- Classify a byte in lead position, as CPython's UTF-8 decoder does:
ASCII bytes decode to themselves, impossible lead bytes (0x80-0xC1,
0xF5-0xFF) yield U+FFFD, and valid lead bytes open a multi-byte state
whose second-byte range excludes overlong forms, surrogates (0xED) and
values above U+10FFFF (0xF4). -/
def leadByte (b : Nat) : Sum Nat MB :=
  if b < 128 then .inl b
  else if b < 194 then .inl 65533
  else if b < 224 then .inr ⟨1, b - 192, 128, 191⟩
  else if b = 224 then .inr ⟨2, 0, 160, 191⟩
  else if b = 237 then .inr ⟨2, 13, 128, 159⟩
  else if b < 240 then .inr ⟨2, b - 224, 128, 191⟩
  else if b = 240 then .inr ⟨3, 0, 144, 191⟩
  else if b < 244 then .inr ⟨3, b - 240, 128, 191⟩
  else if b = 244 then .inr ⟨3, 4, 128, 143⟩
  else .inl 65533

/-- Run of CPython's UTF-8 decoder with errors=replace: each maximal
subpart of an ill-formed subsequence is replaced by one U+FFFD, and a
byte that aborts a multi-byte sequence is re-examined as a lead byte. -/
def decodeGo : Option MB → List Nat → List Nat
  | none, [] => []
  | some _, [] => [65533]
  | none, b :: rest =>
    match leadByte b with
    | .inl c => c :: decodeGo none rest
    | .inr st => decodeGo (some st) rest
  | some st, b :: rest =>
    if st.lo ≤ b ∧ b ≤ st.hi then
      if st.need = 1 then (st.acc * 64 + (b - 128)) :: decodeGo none rest
      else decodeGo (some ⟨st.need - 1, st.acc * 64 + (b - 128), 128, 191⟩) rest
    else
      65533 :: (match leadByte b with
        | .inl c => c :: decodeGo none rest
        | .inr st2 => decodeGo (some st2) rest)

/-- `data.decode('utf-8', errors='replace')` from line 26 of the source. -/
def utf8DecodeReplace (s : List Nat) : List Nat := decodeGo none s

/-- UTF-8 encoding of one Unicode code point. -/
def utf8EncodeChar (c : Nat) : List Nat :=
  if c < 128 then [c]
  else if c < 2048 then [192 + c / 64, 128 + c % 64]
  else if c < 65536 then [224 + c / 4096, 128 + c / 64 % 64, 128 + c % 64]
  else [240 + c / 262144, 128 + c / 4096 % 64, 128 + c / 64 % 64, 128 + c % 64]

/-- `s.encode()` for a Python str: UTF-8 encoding of its code points. -/
def utf8Encode : List Nat → List Nat
  | [] => []
  | c :: t => utf8EncodeChar c ++ utf8Encode t

/-- Decimal rendering of a natural number as a list of digit code points,
as Python's str() of an int produces. -/
def natToCps (n : Nat) : List Nat :=
  if n = 0 then [48] else ((Nat.digits 10 n).map (fun d => d + 48)).reverse

/-- The `data` argument of `process_message`: the smtpd library hands the
message body over either as bytes or as a str. -/
inductive PyData where
  | bytes (b : List Nat)
  | text (s : List Nat)
deriving DecidableEq, Repr

/-- `len(data) if isinstance(data, bytes) else len(data.encode())`
(line 23 of the source). -/
def pyLen : PyData → Nat
  | .bytes b => b.length
  | .text s => (utf8Encode s).length

/-- `data.decode('utf-8', errors='replace') if isinstance(data, bytes)
else data` (line 26 of the source). -/
def decodeBody : PyData → List Nat
  | .bytes b => utf8DecodeReplace b
  | .text s => s

/-- `body[:500]`, the truncation used for the body preview (line 27). -/
def truncPreview (s : List Nat) : List Nat := s.take 500

/-- The dict built by `process_message` (lines 18-27 of the source). -/
structure Entry where
  timestamp : List Nat
  peer : List Nat
  mailfrom : List Nat
  rcpttos : List (List Nat)
  size : Nat
  body_preview : List Nat
deriving DecidableEq, Repr

/-- Lines 17-27 of the source: assembling the log entry.  The peer field
is the formatted string host:port. -/
def buildEntry (timestamp peerHost : List Nat) (peerPort : Nat)
    (mailfrom : List Nat) (rcpttos : List (List Nat)) (data : PyData) : Entry :=
  { timestamp := timestamp
  , peer := peerHost ++ 58 :: natToCps peerPort
  , mailfrom := mailfrom
  , rcpttos := rcpttos
  , size := pyLen data
  , body_preview := truncPreview (decodeBody data) }

/-- Sixty equals signs, the border of the console block. -/
def eq60 : List Nat := List.replicate 60 61

/-- Code points of the literal string fragments used in the console
trace (lines 29-36).  sEmailCaptured is the bracket-close plus the text
EMAIL CAPTURED. -/
def sEmailCaptured : List Nat := [93, 32, 69, 77, 65, 73, 76, 32, 67, 65, 80, 84, 85, 82, 69, 68]

/-- Code points of the label before the sender in the console trace. -/
def sFromLabel : List Nat := [32, 32, 70, 114, 111, 109, 58, 32]

/-- Code points of the label before the recipients in the console trace. -/
def sToLabel : List Nat := [32, 32, 84, 111, 58, 32, 32, 32]

/-- Code points of the label before the size in the console trace. -/
def sSizeLabel : List Nat := [32, 32, 83, 105, 122, 101, 58, 32]

/-- Code points of the text after the size in the console trace. -/
def sBytes : List Nat := [32, 98, 121, 116, 101, 115]

/-- Code points of the comma-space separator joining the recipients. -/
def sCommaSpace : List Nat := [44, 32]

/-- Lines 29-36 of the source: the arguments of the successive print
calls, in order.  The first print argument starts with a newline. -/
def consoleTrace (timestamp mailfrom : List Nat) (rcpttos : List (List Nat))
    (size : Nat) (body : List Nat) : List (List Nat) :=
  [ 10 :: eq60
  , 91 :: timestamp ++ sEmailCaptured
  , sFromLabel ++ mailfrom
  , sToLabel ++ List.intercalate sCommaSpace rcpttos
  , sSizeLabel ++ natToCps size ++ sBytes
  , eq60
  , body.take 1000
  , eq60 ++ [10] ]

/-- Lowercase hexadecimal digit code point for a value below 16. -/
def hexDigit (n : Nat) : Nat := if n < 10 then 48 + n else 87 + n

/-- Four lowercase hex digit code points of a value below 0x10000,
as in Python's backslash-u escapes. -/
def toHex4 (n : Nat) : List Nat :=
  [hexDigit (n / 4096 % 16), hexDigit (n / 256 % 16), hexDigit (n / 16 % 16), hexDigit (n % 16)]

/-- json.dumps escaping of one code point with the default
ensure_ascii=True: the two-character escapes for quote, backslash and
the named control characters, printable ASCII verbatim, backslash-u
escapes otherwise, astral code points as a surrogate pair. -/
def escapeCp (c : Nat) : List Nat :=
  if c = 34 then [92, 34]
  else if c = 92 then [92, 92]
  else if c = 8 then [92, 98]
  else if c = 9 then [92, 116]
  else if c = 10 then [92, 110]
  else if c = 12 then [92, 102]
  else if c = 13 then [92, 114]
  else if 32 ≤ c ∧ c < 127 then [c]
  else if c < 65536 then 92 :: 117 :: toHex4 c
  else 92 :: 117 :: toHex4 (55296 + (c - 65536) / 1024) ++ (92 :: 117 :: toHex4 (56320 + (c - 65536) % 1024))

/-- json.dumps escaping of a whole string (without the quotes). -/
def escStr : List Nat → List Nat
  | [] => []
  | c :: t => escapeCp c ++ escStr t

/-- JSON values, as far as this program produces them: strings, natural
numbers, arrays and objects with ordered members. -/
inductive Json where
  | str (s : List Nat)
  | num (n : Nat)
  | arr (elems : List Json)
  | obj (members : List (List Nat × Json))

mutual

/-- json.dumps with its default separators: comma-space between items
and members, colon-space after keys, insertion order preserved. -/
def jsonDumps : Json → List Nat
  | .str s => 34 :: escStr s ++ [34]
  | .num n => natToCps n
  | .arr xs => 91 :: dumpItems xs ++ [93]
  | .obj kvs => 123 :: dumpMembers kvs ++ [125]

/-- Array items joined by comma-space. -/
def dumpItems : List Json → List Nat
  | [] => []
  | [x] => jsonDumps x
  | x :: y :: t => jsonDumps x ++ 44 :: 32 :: dumpItems (y :: t)

/-- Object members key: value joined by comma-space. -/
def dumpMembers : List (List Nat × Json) → List Nat
  | [] => []
  | [(k, v)] => 34 :: escStr k ++ 34 :: 58 :: 32 :: jsonDumps v
  | (k, v) :: m :: t => 34 :: escStr k ++ 34 :: 58 :: 32 :: jsonDumps v ++ 44 :: 32 :: dumpMembers (m :: t)

end

/-- JSON whitespace. -/
def isWs (c : Nat) : Bool := c = 32 || c = 9 || c = 10 || c = 13

/-- Skip leading JSON whitespace. -/
def skipWs : List Nat → List Nat
  | [] => []
  | c :: rest => if isWs c then skipWs rest else c :: rest

/-- Numeric value of a hex digit code point, accepting both cases. -/
def hexVal (c : Nat) : Option Nat :=
  if 48 ≤ c ∧ c ≤ 57 then some (c - 48)
  else if 97 ≤ c ∧ c ≤ 102 then some (c - 87)
  else if 65 ≤ c ∧ c ≤ 70 then some (c - 55)
  else none

/-- Parse exactly four hex digits. -/
def parseHex4 : List Nat → Option (Nat × List Nat)
  | a :: b :: c :: d :: rest =>
    match hexVal a, hexVal b, hexVal c, hexVal d with
    | some x, some y, some z, some w => some (((x * 16 + y) * 16 + z) * 16 + w, rest)
    | _, _, _, _ => none
  | _ => none

/-- Parse one escape sequence after a backslash, combining a high
surrogate followed by an escaped low surrogate into one code point, as
Python's json scanner does. -/
def parseEsc : List Nat → Option (Nat × List Nat)
  | [] => none
  | e :: r =>
    if e = 34 then some (34, r)
    else if e = 92 then some (92, r)
    else if e = 47 then some (47, r)
    else if e = 98 then some (8, r)
    else if e = 102 then some (12, r)
    else if e = 110 then some (10, r)
    else if e = 114 then some (13, r)
    else if e = 116 then some (9, r)
    else if e = 117 then
      match parseHex4 r with
      | none => none
      | some (h, r2) =>
        if 55296 ≤ h ∧ h ≤ 56319 then
          match r2 with
          | 92 :: 117 :: r3 =>
            match parseHex4 r3 with
            | some (l, r4) =>
              if 56320 ≤ l ∧ l ≤ 57343 then some (65536 + (h - 55296) * 1024 + (l - 56320), r4)
              else some (h, r2)
            | none => some (h, r2)
          | _ => some (h, r2)
        else some (h, r2)
    else none

/-- Parse the body of a JSON string after the opening quote, up to and
including the closing quote.  Fuel-indexed to keep the recursion
structural; one unit of fuel per produced code point suffices. -/
def parseStrBody : Nat → List Nat → Option (List Nat × List Nat)
  | 0, _ => none
  | fuel + 1, s =>
    match s with
    | [] => none
    | c :: rest =>
      if c = 34 then some ([], rest)
      else if c = 92 then
        match parseEsc rest with
        | none => none
        | some (cp, r2) =>
          match parseStrBody fuel r2 with
          | some (cs, r3) => some (cp :: cs, r3)
          | none => none
      else
        match parseStrBody fuel rest with
        | some (cs, r3) => some (c :: cs, r3)
        | none => none

/-- Consume a run of decimal digits, accumulating their value. -/
def readDigits (acc : Nat) : List Nat → Nat × List Nat
  | [] => (acc, [])
  | c :: rest =>
    if 48 ≤ c ∧ c ≤ 57 then readDigits (acc * 10 + (c - 48)) rest
    else (acc, c :: rest)

mutual

/-- Recursive-descent JSON parser for a value, fuel-indexed. -/
def parseValueF : Nat → List Nat → Option (Json × List Nat)
  | 0, _ => none
  | fuel + 1, s =>
    match skipWs s with
    | [] => none
    | c :: rest =>
      if c = 34 then
        match parseStrBody fuel rest with
        | some (cs, r) => some (.str cs, r)
        | none => none
      else if c = 91 then
        match skipWs rest with
        | [] => none
        | d :: rest2 =>
          if d = 93 then some (.arr [], rest2)
          else
            match parseItemsF fuel (d :: rest2) with
            | some (xs, r) => some (.arr xs, r)
            | none => none
      else if c = 123 then
        match skipWs rest with
        | [] => none
        | d :: rest2 =>
          if d = 125 then some (.obj [], rest2)
          else
            match parseMembersF fuel (d :: rest2) with
            | some (kvs, r) => some (.obj kvs, r)
            | none => none
      else if 48 ≤ c ∧ c ≤ 57 then
        some (.num (readDigits (c - 48) rest).1, (readDigits (c - 48) rest).2)
      else none

/-- Parse one or more comma-separated array items up to the closing
bracket. -/
def parseItemsF : Nat → List Nat → Option (List Json × List Nat)
  | 0, _ => none
  | fuel + 1, s =>
    match parseValueF fuel s with
    | none => none
    | some (x, r) =>
      match skipWs r with
      | [] => none
      | d :: rest =>
        if d = 44 then
          match parseItemsF fuel rest with
          | some (xs, r2) => some (x :: xs, r2)
          | none => none
        else if d = 93 then some ([x], rest)
        else none

/-- Parse one or more comma-separated object members up to the closing
brace. -/
def parseMembersF : Nat → List Nat → Option (List (List Nat × Json) × List Nat)
  | 0, _ => none
  | fuel + 1, s =>
    match skipWs s with
    | [] => none
    | c :: rest =>
      if c = 34 then
        match parseStrBody fuel rest with
        | none => none
        | some (k, r) =>
          match skipWs r with
          | [] => none
          | d :: r2 =>
            if d = 58 then
              match parseValueF fuel r2 with
              | none => none
              | some (v, r3) =>
                match skipWs r3 with
                | [] => none
                | e2 :: r4 =>
                  if e2 = 44 then
                    match parseMembersF fuel r4 with
                    | some (kvs, r5) => some ((k, v) :: kvs, r5)
                    | none => none
                  else if e2 = 125 then some ([(k, v)], r4)
                  else none
            else none
      else none

end

/-- json.loads restricted to this grammar: parse one value, allow
trailing whitespace, reject anything else left over. -/
def jsonParse (s : List Nat) : Option Json :=
  match parseValueF (s.length + 1) s with
  | some (j, r) => if skipWs r = [] then some j else none
  | none => none

mutual

/-- Fuel sufficient for parseValueF to reparse the output of jsonDumps. -/
def fuelJ : Json → Nat
  | .str s => s.length + 2
  | .num _ => 1
  | .arr xs => 1 + fuelItems xs
  | .obj kvs => 1 + fuelMembers kvs

/-- Fuel sufficient for parseItemsF on the output of dumpItems. -/
def fuelItems : List Json → Nat
  | [] => 0
  | x :: t => 1 + fuelJ x + fuelItems t

/-- Fuel sufficient for parseMembersF on the output of dumpMembers. -/
def fuelMembers : List (List Nat × Json) → Nat
  | [] => 0
  | (k, v) :: t => 1 + (k.length + 1) + fuelJ v + fuelMembers t

end

/-- A Unicode scalar value: a code point that is not a surrogate and is
at most U+10FFFF.  Python strings produced by UTF-8 decoding contain
only such code points. -/
def ValidCp (c : Nat) : Prop := c < 55296 ∨ (57344 ≤ c ∧ c < 1114112)

instance (c : Nat) : Decidable (ValidCp c) := by
  unfold ValidCp
  exact inferInstance

/-- All code points of the string are Unicode scalar values. -/
def ValidStr (s : List Nat) : Prop := ∀ c ∈ s, ValidCp c

instance (s : List Nat) : Decidable (ValidStr s) := by
  unfold ValidStr
  exact List.decidableBAll _ s

/-- A data argument whose text form contains only scalar values. -/
def ValidData : PyData → Prop
  | .bytes _ => True
  | .text s => ValidStr s

instance : (d : PyData) → Decidable (ValidData d)
  | .bytes _ => .isTrue trivial
  | .text s => inferInstanceAs (Decidable (ValidStr s))

mutual

/-- All strings inside the JSON value consist of scalar values. -/
def ValidJson : Json → Prop
  | .str s => ValidStr s
  | .num _ => True
  | .arr xs => ValidElems xs
  | .obj kvs => ValidMembers kvs

/-- ValidJson for every element of an array. -/
def ValidElems : List Json → Prop
  | [] => True
  | x :: t => ValidJson x ∧ ValidElems t

/-- Valid key and ValidJson value for every object member. -/
def ValidMembers : List (List Nat × Json) → Prop
  | [] => True
  | (k, v) :: t => ValidStr k ∧ ValidJson v ∧ ValidMembers t

end

/-- Code points of the key string timestamp. -/
def kTimestamp : List Nat := [116, 105, 109, 101, 115, 116, 97, 109, 112]

/-- Code points of the key string peer. -/
def kPeer : List Nat := [112, 101, 101, 114]

/-- Code points of the key string from. -/
def kFrom : List Nat := [102, 114, 111, 109]

/-- Code points of the key string to. -/
def kTo : List Nat := [116, 111]

/-- Code points of the key string size. -/
def kSize : List Nat := [115, 105, 122, 101]

/-- Code points of the key string body_preview. -/
def kBodyPreview : List Nat := [98, 111, 100, 121, 95, 112, 114, 101, 118, 105, 101, 119]

/-- The entry dict as a JSON value, with the six keys in the insertion
order of lines 18-27 of the source. -/
def entryJson (e : Entry) : Json :=
  .obj [ (kTimestamp, .str e.timestamp)
       , (kPeer, .str e.peer)
       , (kFrom, .str e.mailfrom)
       , (kTo, .arr (e.rcpttos.map .str))
       , (kSize, .num e.size)
       , (kBodyPreview, .str e.body_preview) ]

/-- `json.dumps(entry) + '\n'`: the chunk written to the log file for
one captured message (lines 38-39 of the source). -/
def logLine (e : Entry) : List Nat := jsonDumps (entryJson e) ++ [10]

/-- An append-mode write: the new file content is the old content with
the record appended; nothing is mutated or deleted. -/
def appendLog (file : List Nat) (e : Entry) : List Nat := file ++ logLine e

/-- First-key lookup in an ordered member list. -/
def lookupKey : List (List Nat × Json) → List Nat → Option Json
  | [], _ => none
  | (k2, v) :: t, k => if k2 = k then some v else lookupKey t k

/-- Field access on a parsed JSON object. -/
def jsonGet : Json → List Nat → Option Json
  | .obj kvs, k => lookupKey kvs k
  | _, _ => none

/-- CatchAllSMTP.process_message (lines 16-41 of the source).  Returns
the console trace that was printed, paired with the outcome: on a
successful file write, the entry, the new file content and the returned
value None; on a failing write, the uncaught exception (there is no
try/except in the code). -/
def process_message (timestamp peerHost : List Nat) (peerPort : Nat)
    (mailfrom : List Nat) (rcpttos : List (List Nat)) (data : PyData)
    (file : List Nat) (writeOk : Bool) :
    List (List Nat) × Except Unit (Entry × List Nat × Option (List Nat)) :=
  let entry := buildEntry timestamp peerHost peerPort mailfrom rcpttos data
  let body := decodeBody data
  let console := consoleTrace timestamp mailfrom rcpttos entry.size body
  (console, if writeOk then .ok (entry, appendLog file entry, none) else .error ())

/-- Protocol phases of the Session Handler state machine (spec 4.2).
The states MAIL and RCPT are modelled as the single phase mail, as the
spec permits. -/
inductive Phase where
  | ready
  | mail
  | dat
  | closed
deriving DecidableEq, Repr

/-- Modelled from the spec: the per-connection Session Handler state
(spec 3, Transaction; spec 4.2).  The repository delegates the protocol
state machine to the external smtpd library, which is not part of the
sources, so it is modelled here from the specification text. -/
structure Sess where
  phase : Phase
  sender : List Nat
  rcpts : List (List Nat)
  bodyLines : List (List Nat)
deriving DecidableEq, Repr

/-- Modelled from the spec: the immutable snapshot handed to the
Capture Sink when a transaction completes (spec 3, CapturedMessage).
Only the envelope and body are modelled; timestamp and peer are
supplied by the sink caller. -/
structure CapturedMsg where
  sender : List Nat
  rcpts : List (List Nat)
  body : List (List Nat)
deriving DecidableEq, Repr

/-- Modelled from the spec: the commands of the minimal dialogue
(spec 4.2): sender declaration, recipient declaration, data start, one
raw body line, quit.  A dialogue aborted by connection loss is a
command list that simply ends. -/
inductive Cmd where
  | mailCmd (sender : List Nat)
  | rcptCmd (addr : List Nat)
  | dataCmd
  | bodyLine (l : List Nat)
  | quitCmd
deriving DecidableEq, Repr

/-- Modelled from the spec: transfer-encoding un-escaping of one body
line (spec 4.2 transition 5): one extra leading period is stripped. -/
def unescapeLine (l : List Nat) : List Nat :=
  match l with
  | 46 :: rest => rest
  | _ => l

/-- Modelled from the spec: one transition of the Session Handler
(spec 4.2).  A data-start with no recipient is rejected; a line with a
single period in the data phase finalizes the transaction, emits the
CapturedMessage for the sink and resets the transaction; malformed or
out-of-sequence commands keep the current state. -/
def step (st : Sess) (c : Cmd) : Sess × Option CapturedMsg :=
  match st.phase, c with
  | .closed, _ => (st, none)
  | _, .quitCmd => ({ st with phase := .closed }, none)
  | .ready, .mailCmd s => ({ phase := .mail, sender := s, rcpts := [], bodyLines := [] }, none)
  | .mail, .rcptCmd a => ({ st with rcpts := st.rcpts ++ [a] }, none)
  | .mail, .dataCmd =>
    if st.rcpts = [] then (st, none) else ({ st with phase := .dat }, none)
  | .dat, .bodyLine l =>
    if l = [46] then
      ({ phase := .ready, sender := [], rcpts := [], bodyLines := [] },
       some { sender := st.sender, rcpts := st.rcpts, body := st.bodyLines })
    else ({ st with bodyLines := st.bodyLines ++ [unescapeLine l] }, none)
  | _, _ => (st, none)

/-- Modelled from the spec: run the Session Handler over a list of
commands, collecting every CapturedMessage handed to the Capture Sink,
in order. -/
def run : Sess → List Cmd → Sess × List CapturedMsg
  | st, [] => (st, [])
  | st, c :: rest =>
    ((run (step st c).1 rest).1, (step st c).2.toList ++ (run (step st c).1 rest).2)

/-- The state of a freshly accepted connection after the greeting. -/
def initSess : Sess := { phase := .ready, sender := [], rcpts := [], bodyLines := [] }

/-- One well-formed data-transfer cycle: sender declaration, the given
recipient declarations, data start, the given raw body lines, then the
end-of-data marker (a line holding a single period). -/
def cycleCmds (s : List Nat) (rc : List (List Nat)) (lines : List (List Nat)) : List Cmd :=
  Cmd.mailCmd s :: rc.map Cmd.rcptCmd ++ [Cmd.dataCmd] ++ lines.map Cmd.bodyLine ++ [Cmd.bodyLine [46]]

/-- A dialogue aborted by connection loss before the end-of-data
marker: the same cycle but the command stream simply stops mid-body. -/
def abortedCmds (s : List Nat) (rc : List (List Nat)) (lines : List (List Nat)) : List Cmd :=
  Cmd.mailCmd s :: rc.map Cmd.rcptCmd ++ [Cmd.dataCmd] ++ lines.map Cmd.bodyLine


/-- The remainder does not start with a decimal digit, so that a number
parse stops exactly at the boundary. -/
def NoDigitHead : List Nat → Prop
  | [] => True
  | c :: _ => ¬(48 ≤ c ∧ c ≤ 57)

/-- Any admissible completion of a multi-byte decoder state yields a
Unicode scalar value; expressed by recursion on the number of
continuation bytes still needed. -/
def stOK : Nat → Nat → Nat → Nat → Prop
  | 0, acc, _, _ => ValidCp acc
  | 1, acc, lo, hi => ∀ b, lo ≤ b → b ≤ hi → ValidCp (acc * 64 + (b - 128))
  | n + 2, acc, lo, hi => ∀ b, lo ≤ b → b ≤ hi → stOK (n + 1) (acc * 64 + (b - 128)) 128 191

theorem stOK_one (acc lo hi : Nat) :
    stOK 1 acc lo hi ↔ ∀ b, lo ≤ b → b ≤ hi → ValidCp (acc * 64 + (b - 128)) := Iff.rfl

theorem stOK_two (acc lo hi : Nat) :
    stOK 2 acc lo hi ↔ ∀ b, lo ≤ b → b ≤ hi → stOK 1 (acc * 64 + (b - 128)) 128 191 := Iff.rfl

theorem stOK_three (acc lo hi : Nat) :
    stOK 3 acc lo hi ↔ ∀ b, lo ≤ b → b ≤ hi → stOK 2 (acc * 64 + (b - 128)) 128 191 := Iff.rfl

theorem leadByte_inl_valid (b c : Nat) (h : leadByte b = .inl c) : ValidCp c := by
  unfold leadByte at h
  split_ifs at h with h1 h2 h3 h4 h5 h6 h7 h8 h9 <;>
    first
      | (injection h with h0; unfold ValidCp; omega)
      | exact Sum.noConfusion h

theorem leadByte_inr_ok (b : Nat) (st : MB) (h : leadByte b = .inr st) :
    1 ≤ st.need ∧ stOK st.need st.acc st.lo st.hi := by
  unfold leadByte at h
  split_ifs at h with h1 h2 h3 h4 h5 h6 h7 h8 h9 <;>
    first
      | exact Sum.noConfusion h
      | (injection h with h0; subst h0
         refine ⟨by simp, ?_⟩
         simp only [stOK_one, stOK_two, stOK_three]
         intros
         unfold ValidCp
         omega)

theorem decodeGo_valid : ∀ (s : List Nat) (ost : Option MB),
    (∀ st, ost = some st → 1 ≤ st.need ∧ stOK st.need st.acc st.lo st.hi) →
    ∀ c ∈ decodeGo ost s, ValidCp c := by
  intro s
  induction s with
  | nil =>
    intro ost h c hc
    cases ost with
    | none => simp [decodeGo] at hc
    | some st =>
      simp [decodeGo] at hc
      subst hc
      unfold ValidCp
      omega
  | cons b rest ih =>
    intro ost h c hc
    cases ost with
    | none =>
      cases hl : leadByte b with
      | inl c2 =>
        simp only [decodeGo, hl] at hc
        rcases List.mem_cons.mp hc with h2 | h2
        · subst h2; exact leadByte_inl_valid b c hl
        · exact ih none (fun _ e => Option.noConfusion e) c h2
      | inr st =>
        simp only [decodeGo, hl] at hc
        refine ih (some st) ?_ c hc
        intro st2 e
        injection e with e
        subst e
        exact leadByte_inr_ok b st hl
    | some st =>
      obtain ⟨hn, hok⟩ := h st rfl
      simp only [decodeGo] at hc
      by_cases hr : st.lo ≤ b ∧ b ≤ st.hi
      · rw [if_pos hr] at hc
        by_cases h1 : st.need = 1
        · rw [if_pos h1] at hc
          rcases List.mem_cons.mp hc with h2 | h2
          · rw [h2]
            rw [h1, stOK_one] at hok
            exact hok b hr.1 hr.2
          · exact ih none (fun st2 e => Option.noConfusion e) c h2
        · rw [if_neg h1] at hc
          obtain ⟨n, hn2⟩ : ∃ n, st.need = n + 2 := ⟨st.need - 2, by omega⟩
          refine ih (some ⟨st.need - 1, st.acc * 64 + (b - 128), 128, 191⟩) ?_ c hc
          intro st2 e
          injection e with e
          subst e
          refine ⟨show 1 ≤ st.need - 1 by omega, ?_⟩
          show stOK (st.need - 1) (st.acc * 64 + (b - 128)) 128 191
          rw [hn2] at hok
          rw [stOK] at hok
          have h3 := hok b hr.1 hr.2
          have h4 : st.need - 1 = n + 1 := by omega
          rw [h4]
          exact h3
      · rw [if_neg hr] at hc
        rcases List.mem_cons.mp hc with h2 | h2
        · subst h2; unfold ValidCp; omega
        · cases hl : leadByte b with
          | inl c2 =>
            rw [hl] at h2
            simp only at h2
            rcases List.mem_cons.mp h2 with h3 | h3
            · subst h3; exact leadByte_inl_valid b c hl
            · exact ih none (fun st2 e => Option.noConfusion e) c h3
          | inr st2 =>
            rw [hl] at h2
            simp only at h2
            refine ih (some st2) ?_ c h2
            intro st3 e
            injection e with e
            subst e
            exact leadByte_inr_ok b st2 hl

theorem utf8DecodeReplace_valid (bs : List Nat) : ∀ c ∈ utf8DecodeReplace bs, ValidCp c :=
  decodeGo_valid bs none (fun _ e => Option.noConfusion e)

theorem hexDigit_ge (n : Nat) : 48 ≤ hexDigit n := by
  unfold hexDigit
  split_ifs <;> omega

theorem toHex4_ge (n c : Nat) (h : c ∈ toHex4 n) : 48 ≤ c := by
  unfold toHex4 at h
  simp only [List.mem_cons, List.not_mem_nil, or_false] at h
  rcases h with rfl | rfl | rfl | rfl <;> exact hexDigit_ge _

theorem escapeCp_ge32 (c c2 : Nat) (h : c2 ∈ escapeCp c) : 32 ≤ c2 := by
  unfold escapeCp at h
  split_ifs at h with h1 h2 h3 h4 h5 h6 h7 h8 h9
  · simp only [List.mem_cons, List.not_mem_nil, or_false] at h
    rcases h with rfl | rfl <;> omega
  · simp only [List.mem_cons, List.not_mem_nil, or_false] at h
    rcases h with rfl | rfl <;> omega
  · simp only [List.mem_cons, List.not_mem_nil, or_false] at h
    rcases h with rfl | rfl <;> omega
  · simp only [List.mem_cons, List.not_mem_nil, or_false] at h
    rcases h with rfl | rfl <;> omega
  · simp only [List.mem_cons, List.not_mem_nil, or_false] at h
    rcases h with rfl | rfl <;> omega
  · simp only [List.mem_cons, List.not_mem_nil, or_false] at h
    rcases h with rfl | rfl <;> omega
  · simp only [List.mem_cons, List.not_mem_nil, or_false] at h
    rcases h with rfl | rfl <;> omega
  · simp only [List.mem_cons, List.not_mem_nil, or_false] at h
    rcases h with rfl
    omega
  · simp only [List.mem_cons] at h
    rcases h with rfl | rfl | h
    · omega
    · omega
    · have := toHex4_ge _ _ h
      omega
  · simp only [List.mem_cons, List.mem_append] at h
    rcases h with (rfl | rfl | h) | (rfl | rfl | h) <;>
      first
        | omega
        | (have hg := toHex4_ge _ _ h; omega)

theorem escStr_ge32 (s : List Nat) (c2 : Nat) (h : c2 ∈ escStr s) : 32 ≤ c2 := by
  induction s with
  | nil => simp [escStr] at h
  | cons c t ih =>
    rw [escStr] at h
    rcases List.mem_append.mp h with h | h
    · exact escapeCp_ge32 c c2 h
    · exact ih h

theorem natToCps_digits (n : Nat) : ∀ c ∈ natToCps n, 48 ≤ c ∧ c ≤ 57 := by
  intro c h
  unfold natToCps at h
  split_ifs at h with h0
  · simp only [List.mem_cons, List.not_mem_nil, or_false] at h
    omega
  · rw [List.mem_reverse] at h
    rcases List.mem_map.mp h with ⟨d, hd, rfl⟩
    have : d < 10 := Nat.digits_lt_base (by norm_num) hd
    omega

theorem natToCps_ne_nil (n : Nat) : natToCps n ≠ [] := by
  unfold natToCps
  split_ifs with h0
  · simp
  · simp [Nat.digits_ne_nil_iff_ne_zero, h0]

theorem dumpItems_nonl (xs : List Json) (hx : ∀ x ∈ xs, 10 ∉ jsonDumps x) :
    10 ∉ dumpItems xs := by
  induction xs with
  | nil => simp [dumpItems]
  | cons x t ih =>
    intro h
    cases t with
    | nil => exact hx x (by simp) (by simpa [dumpItems] using h)
    | cons y t2 =>
      rw [dumpItems] at h
      simp only [List.mem_append, List.mem_cons] at h
      rcases h with h | h | h | h
      · exact hx x (by simp) h
      · omega
      · omega
      · exact ih (fun z hz => hx z (by simp [hz])) h

theorem dumpMembers_nonl (kvs : List (List Nat × Json))
    (hx : ∀ m ∈ kvs, 10 ∉ jsonDumps m.2) : 10 ∉ dumpMembers kvs := by
  induction kvs with
  | nil => simp [dumpMembers]
  | cons m t ih =>
    obtain ⟨k, v⟩ := m
    intro h
    cases t with
    | nil =>
      rw [dumpMembers] at h
      simp only [List.mem_append, List.mem_cons] at h
      rcases h with (h | h) | (h | h | h | h)
      · omega
      · exact absurd (escStr_ge32 k 10 h) (by omega)
      · omega
      · omega
      · omega
      · exact hx ⟨k, v⟩ (by simp) h
    | cons m2 t2 =>
      rw [dumpMembers] at h
      simp only [List.mem_append, List.mem_cons] at h
      rcases h with ((h | h) | (h | h | h | h)) | (h | h | h)
      · omega
      · exact absurd (escStr_ge32 k 10 h) (by omega)
      · omega
      · omega
      · omega
      · exact hx ⟨k, v⟩ (by simp) h
      · omega
      · omega
      · exact ih (fun z hz => hx z (by simp [hz])) h

theorem json_sizeOf_pos (j : Json) : 1 ≤ sizeOf j := by
  cases j <;> simp <;> omega

theorem jsonDumps_nonl_aux : ∀ (n : Nat) (j : Json), sizeOf j ≤ n → 10 ∉ jsonDumps j := by
  intro n
  induction n with
  | zero =>
    intro j h
    exact absurd (json_sizeOf_pos j) (by omega)
  | succ n ihn =>
    intro j hsz
    cases j with
    | str s =>
      intro h
      rw [jsonDumps] at h
      simp only [List.mem_append, List.mem_cons, List.not_mem_nil, or_false] at h
      rcases h with (h | h) | h
      · omega
      · exact absurd (escStr_ge32 s 10 h) (by omega)
      · omega
    | num m =>
      intro h
      rw [jsonDumps] at h
      have := natToCps_digits m 10 h
      omega
    | arr xs =>
      intro h
      rw [jsonDumps] at h
      simp only [List.mem_append, List.mem_cons, List.not_mem_nil, or_false] at h
      rcases h with (h | h) | h
      · omega
      · refine dumpItems_nonl xs ?_ h
        intro x hxm
        refine ihn x ?_
        have h1 : sizeOf x < sizeOf xs := List.sizeOf_lt_of_mem hxm
        have h2 : sizeOf (Json.arr xs) = 1 + sizeOf xs := by simp
        omega
      · omega
    | obj kvs =>
      intro h
      rw [jsonDumps] at h
      simp only [List.mem_append, List.mem_cons, List.not_mem_nil, or_false] at h
      rcases h with (h | h) | h
      · omega
      · refine dumpMembers_nonl kvs ?_ h
        intro m hm
        refine ihn m.2 ?_
        have h1 : sizeOf m < sizeOf kvs := List.sizeOf_lt_of_mem hm
        have h2 : sizeOf (Json.obj kvs) = 1 + sizeOf kvs := by simp
        have h3 : sizeOf m.2 < sizeOf m := by
          obtain ⟨k, v⟩ := m
          simp
          try omega
        omega
      · omega

theorem jsonDumps_nonl (j : Json) : 10 ∉ jsonDumps j :=
  jsonDumps_nonl_aux (sizeOf j) j le_rfl

/-- C2: for every captured message, the recorded size equals the byte
length of the raw body: the length itself for a bytes body, the length
of the UTF-8 encoding for a text body (and not the preview length). -/
theorem c2_size_is_raw_byte_length (ts host : List Nat) (port : Nat) (mf : List Nat)
    (rt : List (List Nat)) (b s : List Nat) :
    (buildEntry ts host port mf rt (.bytes b)).size = b.length
    ∧ (buildEntry ts host port mf rt (.text s)).size = (utf8Encode s).length :=
  ⟨rfl, rfl⟩

/-- C3: the body preview is the first 500 code points of the body
decoded as UTF-8 with invalid sequences replaced (replacement character
U+FFFD); a body already of text type is used as-is before truncation. -/
theorem c3_preview_is_decoded_truncation (ts host : List Nat) (port : Nat) (mf : List Nat)
    (rt : List (List Nat)) (b s : List Nat) :
    (buildEntry ts host port mf rt (.bytes b)).body_preview = (utf8DecodeReplace b).take 500
    ∧ (buildEntry ts host port mf rt (.text s)).body_preview = s.take 500 :=
  ⟨rfl, rfl⟩

/-- C4: the truncation used for the body preview is idempotent:
truncating an already-truncated string yields the same string. -/
theorem c4_truncation_idempotent (s : List Nat) :
    truncPreview (truncPreview s) = truncPreview s := by
  simp [truncPreview, List.take_take]

/-- C6: the console trace printed by the sink is the bordered block of
lines 29-36: it contains the timestamp line, the sender line, the
comma-joined recipients line, the byte-size line and the first 1000
code points (not 500) of the decoded body, between rows of 60 equals
signs. -/
theorem c6_console_trace (ts host : List Nat) (port : Nat) (mf : List Nat)
    (rt : List (List Nat)) (data : PyData) (file : List Nat) (w : Bool) :
    (process_message ts host port mf rt data file w).1
      = consoleTrace ts mf rt (pyLen data) (decodeBody data)
    ∧ (91 :: ts ++ sEmailCaptured) ∈ (process_message ts host port mf rt data file w).1
    ∧ (sFromLabel ++ mf) ∈ (process_message ts host port mf rt data file w).1
    ∧ (sToLabel ++ List.intercalate sCommaSpace rt) ∈ (process_message ts host port mf rt data file w).1
    ∧ (sSizeLabel ++ natToCps (pyLen data) ++ sBytes) ∈ (process_message ts host port mf rt data file w).1
    ∧ (decodeBody data).take 1000 ∈ (process_message ts host port mf rt data file w).1
    ∧ ((process_message ts host port mf rt data file w).1).head? = some (10 :: eq60)
    ∧ ((process_message ts host port mf rt data file w).1).getLast? = some (eq60 ++ [10]) := by
  refine ⟨rfl, ?_, ?_, ?_, ?_, ?_, rfl, rfl⟩ <;>
    simp [process_message, consoleTrace, buildEntry]

/-- C8: the server accepts every message unconditionally: for every
peer, sender, recipient list and body, process_message completes with
the return value None (acceptance), never an error or rejection code. -/
theorem c8_unconditional_accept (ts host : List Nat) (port : Nat) (mf : List Nat)
    (rt : List (List Nat)) (data : PyData) (file : List Nat) :
    ∃ e newFile, (process_message ts host port mf rt data file true).2
      = Except.ok (e, newFile, none) :=
  ⟨buildEntry ts host port mf rt data, appendLog file (buildEntry ts host port mf rt data), rfl⟩

/-- C7 counterexample: at a concrete input with a failing file write,
process_message raises (the write is not wrapped in any try/except), so
the sink call does not complete and does not report acceptance. -/
theorem c7_write_failure_counterexample :
    (process_message [116] [104] 1 [97] [[98]] (.bytes [72]) [] false).2 = Except.error ()
    ∧ (process_message [116] [104] 1 [97] [[98]] (.bytes [72]) [] false).2
        ≠ Except.ok (buildEntry [116] [104] 1 [97] [[98]] (.bytes [72]),
            appendLog [] (buildEntry [116] [104] 1 [97] [[98]] (.bytes [72])), none) :=
  ⟨rfl, fun h => Except.noConfusion h⟩

/-- C7 amended: if appending the log record fails, the exception
propagates out of process_message: the sink call does not complete and
no acceptance value is returned; nothing inside process_message catches
or logs the failure (any containment is left to the caller, outside
this file). -/
theorem c7_write_failure_raises (ts host : List Nat) (port : Nat) (mf : List Nat)
    (rt : List (List Nat)) (data : PyData) (file : List Nat) :
    (process_message ts host port mf rt data file false).2 = Except.error () := rfl

/-- C10: the capture path is total: decoding with replacement always
produces a list of Unicode scalar values (never raises), truncation to
500 and 1000 code points is always within bounds, and when the file
write succeeds process_message always completes and returns None. -/
theorem c10_capture_path_total (ts host : List Nat) (port : Nat) (mf : List Nat)
    (rt : List (List Nat)) (data : PyData) (file : List Nat) (bs : List Nat) (c : Nat)
    (hc : c ∈ utf8DecodeReplace bs) :
    (∃ e newFile, (process_message ts host port mf rt data file true).2
        = Except.ok (e, newFile, none))
    ∧ ValidCp c
    ∧ ((decodeBody data).take 500).length ≤ 500
    ∧ ((decodeBody data).take 1000).length ≤ 1000 := by
  refine ⟨⟨buildEntry ts host port mf rt data,
    appendLog file (buildEntry ts host port mf rt data), rfl⟩,
    utf8DecodeReplace_valid bs c hc, ?_, ?_⟩ <;>
    simp [List.length_take]

/-- Witness for C10 at a concrete input. -/
theorem c10_capture_path_total_witness :
    (72 ∈ utf8DecodeReplace [72])
    ∧ ((∃ e newFile, (process_message [116] [104] 1 [97] [[98]] (.bytes [72]) [] true).2
          = Except.ok (e, newFile, none))
      ∧ ValidCp 72
      ∧ ((decodeBody (.bytes [72])).take 500).length ≤ 500
      ∧ ((decodeBody (.bytes [72])).take 1000).length ≤ 1000) :=
  ⟨by decide, c10_capture_path_total [116] [104] 1 [97] [[98]] (.bytes [72]) [] [72] 72 (by decide)⟩

/-- C1: on a successful write the sink appends exactly the serialized
entry plus one newline to the log file: the old content is preserved as
a prefix, the appended chunk is one line (the serialized object
contains no newline), and the serialized object has exactly the six
fields timestamp, peer, from, to, size and body_preview, in order. -/
theorem c1_append_one_json_line (ts host : List Nat) (port : Nat) (mf : List Nat)
    (rt : List (List Nat)) (data : PyData) (file : List Nat) :
    (process_message ts host port mf rt data file true).2
      = Except.ok (buildEntry ts host port mf rt data,
          file ++ (jsonDumps (entryJson (buildEntry ts host port mf rt data)) ++ [10]), none)
    ∧ (appendLog file (buildEntry ts host port mf rt data)).take file.length = file
    ∧ 10 ∉ jsonDumps (entryJson (buildEntry ts host port mf rt data))
    ∧ entryJson (buildEntry ts host port mf rt data)
      = Json.obj [ (kTimestamp, .str ts)
                 , (kPeer, .str (host ++ 58 :: natToCps port))
                 , (kFrom, .str mf)
                 , (kTo, .arr (rt.map Json.str))
                 , (kSize, .num (pyLen data))
                 , (kBodyPreview, .str (truncPreview (decodeBody data))) ] := by
  refine ⟨rfl, ?_, jsonDumps_nonl _, rfl⟩
  simp [appendLog, List.take_left]

theorem run_append (a b : List Cmd) : ∀ st,
    run st (a ++ b) = ((run (run st a).1 b).1, (run st a).2 ++ (run (run st a).1 b).2) := by
  induction a with
  | nil => intro st; simp [run]
  | cons c t ih =>
    intro st
    simp [run, ih, List.append_assoc]

theorem run_rcpts (rc : List (List Nat)) : ∀ (sn : List Nat) (rcs bl : List (List Nat)) (k : List Cmd),
    run ⟨.mail, sn, rcs, bl⟩ (rc.map Cmd.rcptCmd ++ k) = run ⟨.mail, sn, rcs ++ rc, bl⟩ k := by
  induction rc with
  | nil => intro sn rcs bl k; simp
  | cons a t ih =>
    intro sn rcs bl k
    have hstep : step ⟨.mail, sn, rcs, bl⟩ (Cmd.rcptCmd a) = (⟨.mail, sn, rcs ++ [a], bl⟩, none) := rfl
    simp [run, hstep, ih]

theorem run_lines (lines : List (List Nat)) :
    ∀ (sn : List Nat) (rcs bl : List (List Nat)) (k : List Cmd), (∀ l ∈ lines, l ≠ [46]) →
    run ⟨.dat, sn, rcs, bl⟩ (lines.map Cmd.bodyLine ++ k)
      = run ⟨.dat, sn, rcs, bl ++ lines.map unescapeLine⟩ k := by
  induction lines with
  | nil => intro sn rcs bl k h; simp
  | cons l t ih =>
    intro sn rcs bl k h
    have hl : l ≠ [46] := h l (by simp)
    have hstep : step ⟨.dat, sn, rcs, bl⟩ (Cmd.bodyLine l)
        = (⟨.dat, sn, rcs, bl ++ [unescapeLine l]⟩, none) := by
      simp [step, hl]
    have ht := ih sn rcs (bl ++ [unescapeLine l]) k (fun x hx => h x (by simp [hx]))
    simp [run, hstep, ht, List.append_assoc]

theorem cycle_run (s : List Nat) (rc lines : List (List Nat)) (hrc : rc ≠ [])
    (hl : ∀ l ∈ lines, l ≠ [46]) :
    run initSess (cycleCmds s rc lines) = (initSess, [⟨s, rc, lines.map unescapeLine⟩]) := by
  have h1 : step initSess (Cmd.mailCmd s) = (⟨.mail, s, [], []⟩, none) := rfl
  have h2 : step ⟨.mail, s, rc, []⟩ Cmd.dataCmd = (⟨.dat, s, rc, []⟩, none) := by
    simp [step, hrc]
  have h3 : step ⟨.dat, s, rc, lines.map unescapeLine⟩ (Cmd.bodyLine [46])
      = (initSess, some ⟨s, rc, lines.map unescapeLine⟩) := by
    simp [step, initSess]
  have hre : cycleCmds s rc lines
      = Cmd.mailCmd s :: (rc.map Cmd.rcptCmd
          ++ (Cmd.dataCmd :: (lines.map Cmd.bodyLine ++ [Cmd.bodyLine [46]]))) := by
    simp [cycleCmds]
  rw [hre, run, h1]
  simp only [run_rcpts, List.nil_append]
  rw [run, h2]
  simp only [run_lines lines s rc [] [Cmd.bodyLine [46]] hl, List.nil_append]
  rw [run, h3]
  simp [run]

theorem run_cycles (cycles : List (List Nat × List (List Nat) × List (List Nat)))
    (hc : ∀ p ∈ cycles, p.2.1 ≠ [] ∧ ∀ l ∈ p.2.2, l ≠ [46]) :
    run initSess ((cycles.map fun p => cycleCmds p.1 p.2.1 p.2.2).flatten)
      = (initSess, cycles.map fun p => ⟨p.1, p.2.1, p.2.2.map unescapeLine⟩) := by
  induction cycles with
  | nil => simp [run]
  | cons p t ih =>
    obtain ⟨hp1, hp2⟩ := hc p (by simp)
    have hr := cycle_run p.1 p.2.1 p.2.2 hp1 hp2
    have ht := ih (fun q hq => hc q (by simp [hq]))
    simp only [List.map_cons, List.flatten_cons]
    rw [run_append, hr]
    simp [ht]

theorem run_aborted (s : List Nat) (rc lines : List (List Nat)) (hrc : rc ≠ [])
    (hl : ∀ l ∈ lines, l ≠ [46]) :
    (run initSess (abortedCmds s rc lines)).2 = [] := by
  have h1 : step initSess (Cmd.mailCmd s) = (⟨.mail, s, [], []⟩, none) := rfl
  have h2 : step ⟨.mail, s, rc, []⟩ Cmd.dataCmd = (⟨.dat, s, rc, []⟩, none) := by
    simp [step, hrc]
  have hre : abortedCmds s rc lines
      = Cmd.mailCmd s :: (rc.map Cmd.rcptCmd
          ++ (Cmd.dataCmd :: (lines.map Cmd.bodyLine ++ []))) := by
    simp [abortedCmds]
  rw [hre, run, h1]
  simp only [run_rcpts, List.nil_append]
  rw [run, h2]
  simp only [run_lines lines s rc [] [] hl, List.nil_append]
  simp [run]

/-- C9: for every sequence of well-formed data-transfer cycles (sender,
at least one recipient, data start, body lines, end-of-data marker),
exactly one CapturedMessage is handed to the Capture Sink per cycle; a
single cycle emits exactly its one message, and a dialogue aborted
before the end-of-data marker invokes the sink zero times.  (Modelled
from the spec: the protocol state machine lives in the external smtpd
library, not in the repository sources.) -/
theorem c9_one_capture_per_cycle
    (cycles : List (List Nat × List (List Nat) × List (List Nat)))
    (hc : ∀ p ∈ cycles, p.2.1 ≠ [] ∧ ∀ l ∈ p.2.2, l ≠ [46])
    (s : List Nat) (rc lines : List (List Nat))
    (hrc : rc ≠ []) (hl : ∀ l ∈ lines, l ≠ [46]) :
    (run initSess ((cycles.map fun p => cycleCmds p.1 p.2.1 p.2.2).flatten)).2.length = cycles.length
    ∧ (run initSess (cycleCmds s rc lines)).2 = [⟨s, rc, lines.map unescapeLine⟩]
    ∧ (run initSess (abortedCmds s rc lines)).2 = [] := by
  refine ⟨?_, ?_, run_aborted s rc lines hrc hl⟩
  · rw [run_cycles cycles hc]
    simp
  · rw [cycle_run s rc lines hrc hl]

/-- Witness for C9 at a concrete dialogue: one cycle with one recipient
and one body line, and an aborted dialogue with a dot-stuffed line. -/
theorem c9_one_capture_per_cycle_witness :
    ((∀ p ∈ [(([97] : List Nat), ([[98]] : List (List Nat)), ([[104]] : List (List Nat)))],
        p.2.1 ≠ [] ∧ ∀ l ∈ p.2.2, l ≠ [46])
      ∧ (([[98]] : List (List Nat)) ≠ [])
      ∧ (∀ l ∈ ([[46, 46]] : List (List Nat)), l ≠ [46]))
    ∧ ((run initSess (([(([97] : List Nat), ([[98]] : List (List Nat)), ([[104]] : List (List Nat)))].map
          fun p => cycleCmds p.1 p.2.1 p.2.2).flatten)).2.length = 1
      ∧ (run initSess (cycleCmds [97] [[98]] [[46, 46]])).2
          = [⟨[97], [[98]], [[46, 46]].map unescapeLine⟩]
      ∧ (run initSess (abortedCmds [97] [[98]] [[46, 46]])).2 = []) :=
  ⟨⟨by decide, by decide, by decide⟩,
   c9_one_capture_per_cycle [([97], [[98]], [[104]])] (by decide) [97] [[98]] [[46, 46]]
     (by decide) (by decide)⟩

theorem skipWs_cons_ne (c : Nat) (s : List Nat) (h : isWs c = false) :
    skipWs (c :: s) = c :: s := by
  rw [skipWs, h]
  simp

theorem isWs_false_of_bounds (c : Nat) (h : c ≠ 32 ∧ c ≠ 9 ∧ c ≠ 10 ∧ c ≠ 13) :
    isWs c = false := by
  simp [isWs]
  omega

theorem hexVal_hexDigit (x : Nat) (h : x < 16) : hexVal (hexDigit x) = some x := by
  unfold hexVal hexDigit
  split_ifs <;> simp_all <;> omega

theorem parseHex4_toHex4 (n : Nat) (h : n < 65536) (rest : List Nat) :
    parseHex4 (toHex4 n ++ rest) = some (n, rest) := by
  have h1 := hexVal_hexDigit (n / 4096 % 16) (by omega)
  have h2 := hexVal_hexDigit (n / 256 % 16) (by omega)
  have h3 := hexVal_hexDigit (n / 16 % 16) (by omega)
  have h4 := hexVal_hexDigit (n % 16) (by omega)
  have hval : ((n / 4096 % 16 * 16 + n / 256 % 16) * 16 + n / 16 % 16) * 16 + n % 16 = n := by
    omega
  simp [toHex4, parseHex4, h1, h2, h3, h4, hval]

theorem parseStrBody_esc (f : Nat) (r : List Nat) :
    parseStrBody (f + 1) (92 :: r)
      = match parseEsc r with
        | none => none
        | some (cp, r2) =>
          match parseStrBody f r2 with
          | some (cs, r3) => some (cp :: cs, r3)
          | none => none := by
  rw [parseStrBody]
  norm_num

theorem parseEsc_surrogate (h l : Nat) (X : List Nat)
    (hh1 : 55296 ≤ h) (hh2 : h ≤ 56319) (hh3 : h < 65536)
    (hl1 : 56320 ≤ l) (hl2 : l ≤ 57343) (hl3 : l < 65536) :
    parseEsc (117 :: (toHex4 h ++ (92 :: 117 :: (toHex4 l ++ X))))
      = some (65536 + (h - 55296) * 1024 + (l - 56320), X) := by
  have hp1 := parseHex4_toHex4 h hh3 (92 :: 117 :: (toHex4 l ++ X))
  have hp2 := parseHex4_toHex4 l hl3 X
  rw [parseEsc]
  simp [hp1, hp2, hh1, hh2, hl1, hl2]

theorem parseStrBody_cons (c : Nat) (hvc : ValidCp c) (X : List Nat) (f : Nat) :
    parseStrBody (f + 1) (escapeCp c ++ X)
      = match parseStrBody f X with
        | some (cs, r) => some (c :: cs, r)
        | none => none := by
  unfold escapeCp
  split_ifs with h1 h2 h3 h4 h5 h6 h7 h8 h9
  · subst h1
    cases hp : parseStrBody f X <;> simp [parseStrBody, parseEsc, hp]
  · subst h2
    cases hp : parseStrBody f X <;> simp [parseStrBody, parseEsc, hp]
  · subst h3
    cases hp : parseStrBody f X <;> simp [parseStrBody, parseEsc, hp]
  · subst h4
    cases hp : parseStrBody f X <;> simp [parseStrBody, parseEsc, hp]
  · subst h5
    cases hp : parseStrBody f X <;> simp [parseStrBody, parseEsc, hp]
  · subst h6
    cases hp : parseStrBody f X <;> simp [parseStrBody, parseEsc, hp]
  · subst h7
    cases hp : parseStrBody f X <;> simp [parseStrBody, parseEsc, hp]
  · cases hp : parseStrBody f X <;> simp [parseStrBody, hp, h1, h2]
  · have hs : ¬(55296 ≤ c ∧ c ≤ 56319) := by
      unfold ValidCp at hvc
      omega
    have hp4 := parseHex4_toHex4 c h9 X
    cases hp : parseStrBody f X <;>
      simp [parseStrBody, parseEsc, List.cons_append, List.append_assoc, hp4, hp, hs]
  · have hv2 : c < 1114112 := by
      unfold ValidCp at hvc
      omega
    have heq : (92 :: 117 :: toHex4 (55296 + (c - 65536) / 1024)
          ++ (92 :: 117 :: toHex4 (56320 + (c - 65536) % 1024))) ++ X
        = 92 :: (117 :: (toHex4 (55296 + (c - 65536) / 1024)
          ++ (92 :: 117 :: (toHex4 (56320 + (c - 65536) % 1024) ++ X)))) := by
      simp [List.cons_append, List.append_assoc]
    rw [heq, parseStrBody_esc,
      parseEsc_surrogate (55296 + (c - 65536) / 1024) (56320 + (c - 65536) % 1024) X
        (by omega) (by omega) (by omega) (by omega) (by omega) (by omega)]
    have hc : 65536 + (55296 + (c - 65536) / 1024 - 55296) * 1024
        + (56320 + (c - 65536) % 1024 - 56320) = c := by omega
    cases hp : parseStrBody f X with
    | none => simp only [hp, hc]
    | some pr =>
      obtain ⟨cs, r⟩ := pr
      simp only [hp, hc]

theorem parseStrBody_rt (s : List Nat) : ∀ (rest : List Nat) (fuel : Nat), ValidStr s →
    s.length + 1 ≤ fuel → parseStrBody fuel (escStr s ++ 34 :: rest) = some (s, rest) := by
  induction s with
  | nil =>
    intro rest fuel _ hf
    obtain ⟨f, rfl⟩ : ∃ f, fuel = f + 1 := ⟨fuel - 1, by omega⟩
    rw [escStr]
    simp [parseStrBody]
  | cons c t ih =>
    intro rest fuel hv hf
    obtain ⟨f, rfl⟩ : ∃ f, fuel = f + 1 := ⟨fuel - 1, by omega⟩
    have hvc : ValidCp c := hv c (by simp)
    have iht := ih rest f (fun x hx => hv x (by simp [hx]))
      (by simp [List.length_cons] at hf; omega)
    rw [escStr, List.append_assoc, parseStrBody_cons c hvc _ f, iht]

theorem readDigits_append (ds : List Nat) : ∀ (acc : Nat) (rest : List Nat),
    (∀ c ∈ ds, 48 ≤ c ∧ c ≤ 57) → NoDigitHead rest →
    readDigits acc (ds ++ rest) = (ds.foldl (fun a c => a * 10 + (c - 48)) acc, rest) := by
  induction ds with
  | nil =>
    intro acc rest _ hrest
    simp only [List.nil_append, List.foldl_nil]
    cases rest with
    | nil => rfl
    | cons c r => rw [readDigits, if_neg hrest]
  | cons d t ih =>
    intro acc rest hds hrest
    have hd := hds d (by simp)
    simp only [List.cons_append, List.foldl_cons]
    rw [readDigits, if_pos hd]
    exact ih _ rest (fun x hx => hds x (by simp [hx])) hrest

theorem foldl_digits_rev (l : List Nat) : ∀ a : Nat,
    List.foldl (fun x d => x * 10 + d) a l.reverse = a * 10 ^ l.length + Nat.ofDigits 10 l := by
  induction l with
  | nil => intro a; simp
  | cons x t ih =>
    intro a
    simp only [List.reverse_cons, List.foldl_append, List.foldl_cons, List.foldl_nil, ih]
    simp only [Nat.ofDigits_cons, List.length_cons, pow_succ]
    ring

theorem natToCps_foldl (n : Nat) :
    List.foldl (fun a c => a * 10 + (c - 48)) 0 (natToCps n) = n := by
  unfold natToCps
  split_ifs with h0
  · subst h0
    simp
  · rw [← List.map_reverse, List.foldl_map]
    simp only [Nat.add_sub_cancel]
    rw [foldl_digits_rev]
    simp [Nat.ofDigits_digits]

theorem jsonDumps_head (j : Json) : ∃ c t, jsonDumps j = c :: t
    ∧ (c = 34 ∨ c = 91 ∨ c = 123 ∨ (48 ≤ c ∧ c ≤ 57)) := by
  cases j with
  | str s =>
    refine ⟨34, escStr s ++ [34], ?_, by omega⟩
    rw [jsonDumps]
    simp
  | num n =>
    cases hnc : natToCps n with
    | nil => exact absurd hnc (natToCps_ne_nil n)
    | cons c ds =>
      refine ⟨c, ds, ?_, ?_⟩
      · rw [jsonDumps, hnc]
      · have := natToCps_digits n c (by rw [hnc]; simp)
        omega
  | arr xs =>
    refine ⟨91, dumpItems xs ++ [93], ?_, by omega⟩
    rw [jsonDumps]
    simp
  | obj kvs =>
    refine ⟨123, dumpMembers kvs ++ [125], ?_, by omega⟩
    rw [jsonDumps]
    simp

theorem dumpItems_cons_eq (x : Json) (t : List Json) :
    ∃ k, dumpItems (x :: t) = jsonDumps x ++ k := by
  cases t with
  | nil => exact ⟨[], by simp [dumpItems]⟩
  | cons y t3 => exact ⟨44 :: 32 :: dumpItems (y :: t3), rfl⟩

theorem parseValueF_space (fuel : Nat) (s : List Nat) :
    parseValueF fuel (32 :: s) = parseValueF fuel s := by
  cases fuel with
  | zero => rfl
  | succ f =>
    rw [parseValueF, parseValueF, show skipWs (32 :: s) = skipWs s from rfl]

theorem parseItemsF_space (fuel : Nat) (s : List Nat) :
    parseItemsF fuel (32 :: s) = parseItemsF fuel s := by
  cases fuel with
  | zero => rfl
  | succ f =>
    rw [parseItemsF, parseItemsF, parseValueF_space]

theorem parseMembersF_space (fuel : Nat) (s : List Nat) :
    parseMembersF fuel (32 :: s) = parseMembersF fuel s := by
  cases fuel with
  | zero => rfl
  | succ f =>
    rw [parseMembersF, parseMembersF, show skipWs (32 :: s) = skipWs s from rfl]

theorem parseValueF_str (f : Nat) (Y : List Nat) :
    parseValueF (f + 1) (34 :: Y)
      = match parseStrBody f Y with
        | some (cs, r) => some (Json.str cs, r)
        | none => none := by
  rw [parseValueF, skipWs_cons_ne 34 _ (by norm_num [isWs])]
  norm_num

theorem parseValueF_digit (f c : Nat) (hc1 : 48 ≤ c) (hc2 : c ≤ 57) (Y : List Nat) :
    parseValueF (f + 1) (c :: Y)
      = some (Json.num (readDigits (c - 48) Y).1, (readDigits (c - 48) Y).2) := by
  rw [parseValueF, skipWs_cons_ne c _ (isWs_false_of_bounds c (by omega))]
  have h34 : ¬(c = 34) := by omega
  have h91 : ¬(c = 91) := by omega
  have h123 : ¬(c = 123) := by omega
  simp [h34, h91, h123, hc1, hc2]

theorem parseValueF_arr_nil (f : Nat) (rest : List Nat) :
    parseValueF (f + 1) (91 :: 93 :: rest) = some (Json.arr [], rest) := by
  rw [parseValueF, skipWs_cons_ne 91 _ (by norm_num [isWs])]
  norm_num [skipWs_cons_ne 93 rest (by norm_num [isWs])]

theorem parseValueF_arr_cons (f d : Nat) (W : List Nat) (hd : isWs d = false) (h93 : ¬(d = 93)) :
    parseValueF (f + 1) (91 :: d :: W)
      = match parseItemsF f (d :: W) with
        | some (xs, r) => some (Json.arr xs, r)
        | none => none := by
  rw [parseValueF, skipWs_cons_ne 91 _ (by norm_num [isWs])]
  norm_num [skipWs_cons_ne d W hd, h93]

theorem parseValueF_obj_nil (f : Nat) (rest : List Nat) :
    parseValueF (f + 1) (123 :: 125 :: rest) = some (Json.obj [], rest) := by
  rw [parseValueF, skipWs_cons_ne 123 _ (by norm_num [isWs])]
  norm_num [skipWs_cons_ne 125 rest (by norm_num [isWs])]

theorem parseValueF_obj_cons (f d : Nat) (W : List Nat) (hd : isWs d = false) (h125 : ¬(d = 125)) :
    parseValueF (f + 1) (123 :: d :: W)
      = match parseMembersF f (d :: W) with
        | some (kvs, r) => some (Json.obj kvs, r)
        | none => none := by
  rw [parseValueF, skipWs_cons_ne 123 _ (by norm_num [isWs])]
  norm_num [skipWs_cons_ne d W hd, h125]

theorem dumpMembers_cons_head (k : List Nat) (v : Json) (t : List (List Nat × Json)) :
    ∃ mt, dumpMembers ((k, v) :: t) = 34 :: mt := by
  cases t with
  | nil =>
    refine ⟨escStr k ++ (34 :: 58 :: 32 :: jsonDumps v), ?_⟩
    rw [dumpMembers]
    simp
  | cons m2 t3 =>
    refine ⟨escStr k ++ (34 :: 58 :: 32 :: (jsonDumps v ++ (44 :: 32 :: dumpMembers (m2 :: t3)))), ?_⟩
    rw [dumpMembers]
    simp [List.append_assoc]

theorem parse_rt : ∀ fuel : Nat,
    (∀ (j : Json) (rest : List Nat), ValidJson j → fuelJ j ≤ fuel → NoDigitHead rest →
      parseValueF fuel (jsonDumps j ++ rest) = some (j, rest))
    ∧ (∀ (xs : List Json) (rest : List Nat), xs ≠ [] → ValidElems xs → fuelItems xs ≤ fuel →
      parseItemsF fuel (dumpItems xs ++ 93 :: rest) = some (xs, rest))
    ∧ (∀ (kvs : List (List Nat × Json)) (rest : List Nat), kvs ≠ [] → ValidMembers kvs →
      fuelMembers kvs ≤ fuel →
      parseMembersF fuel (dumpMembers kvs ++ 125 :: rest) = some (kvs, rest)) := by
  intro fuel
  induction fuel using Nat.strong_induction_on with
  | _ fuel ih =>
  refine ⟨?_, ?_, ?_⟩
  · intro j rest hv hf hrest
    cases j with
    | str s =>
      rw [fuelJ] at hf
      obtain ⟨f, rfl⟩ : ∃ f, fuel = f + 1 := ⟨fuel - 1, by omega⟩
      rw [ValidJson] at hv
      have hjd : jsonDumps (Json.str s) ++ rest = 34 :: (escStr s ++ 34 :: rest) := by
        rw [jsonDumps]
        simp
      rw [hjd, parseValueF_str, parseStrBody_rt s rest f hv (by omega)]
    | num n =>
      rw [fuelJ] at hf
      obtain ⟨f, rfl⟩ : ∃ f, fuel = f + 1 := ⟨fuel - 1, by omega⟩
      cases hnc : natToCps n with
      | nil => exact absurd hnc (natToCps_ne_nil n)
      | cons c ds =>
        have hds := natToCps_digits n
        have hc : 48 ≤ c ∧ c ≤ 57 := hds c (by rw [hnc]; simp)
        have hdall : ∀ x ∈ ds, 48 ≤ x ∧ x ≤ 57 := fun x hx => hds x (by rw [hnc]; simp [hx])
        have hjd : jsonDumps (Json.num n) ++ rest = c :: (ds ++ rest) := by
          rw [jsonDumps, hnc]
          simp
        have hrd := readDigits_append ds (c - 48) rest hdall hrest
        have hfold : ds.foldl (fun a x => a * 10 + (x - 48)) (c - 48) = n := by
          have h2 := natToCps_foldl n
          rw [hnc] at h2
          simpa using h2
        rw [hjd, parseValueF_digit f c hc.1 hc.2, hrd]
        simp [hfold]
    | arr xs =>
      rw [fuelJ] at hf
      obtain ⟨f, rfl⟩ : ∃ f, fuel = f + 1 := ⟨fuel - 1, by omega⟩
      rw [ValidJson] at hv
      cases xs with
      | nil =>
        have hjd : jsonDumps (Json.arr []) ++ rest = 91 :: 93 :: rest := by
          rw [jsonDumps, dumpItems]
          simp
        rw [hjd, parseValueF_arr_nil]
      | cons x t =>
        obtain ⟨ktail, hk⟩ := dumpItems_cons_eq x t
        obtain ⟨c2, t2, he2, hcls⟩ := jsonDumps_head x
        have hnws : isWs c2 = false := isWs_false_of_bounds c2 (by rcases hcls with h | h | h | h <;> omega)
        have h93 : ¬(c2 = 93) := by rcases hcls with h | h | h | h <;> omega
        have hY : dumpItems (x :: t) ++ 93 :: rest = c2 :: (t2 ++ (ktail ++ 93 :: rest)) := by
          rw [hk, he2]
          simp [List.append_assoc]
        have hjd : jsonDumps (Json.arr (x :: t)) ++ rest
            = 91 :: (dumpItems (x :: t) ++ 93 :: rest) := by
          rw [jsonDumps]
          simp
        rw [hjd, hY, parseValueF_arr_cons f c2 _ hnws h93, ← hY,
          (ih f (by omega)).2.1 (x :: t) rest (by simp) hv (by omega)]
    | obj kvs =>
      rw [fuelJ] at hf
      obtain ⟨f, rfl⟩ : ∃ f, fuel = f + 1 := ⟨fuel - 1, by omega⟩
      rw [ValidJson] at hv
      cases kvs with
      | nil =>
        have hjd : jsonDumps (Json.obj []) ++ rest = 123 :: 125 :: rest := by
          rw [jsonDumps, dumpMembers]
          simp
        rw [hjd, parseValueF_obj_nil]
      | cons kv t =>
        obtain ⟨k, v⟩ := kv
        obtain ⟨mt, hm⟩ := dumpMembers_cons_head k v t
        have hY : dumpMembers ((k, v) :: t) ++ 125 :: rest = 34 :: (mt ++ 125 :: rest) := by
          rw [hm]
          simp
        have hjd : jsonDumps (Json.obj ((k, v) :: t)) ++ rest
            = 123 :: (dumpMembers ((k, v) :: t) ++ 125 :: rest) := by
          rw [jsonDumps]
          simp
        rw [hjd, hY, parseValueF_obj_cons f 34 _ (by norm_num [isWs]) (by norm_num), ← hY,
          (ih f (by omega)).2.2 ((k, v) :: t) rest (by simp) hv (by omega)]
  · intro xs rest hne hv hf
    cases xs with
    | nil => exact absurd rfl hne
    | cons x t =>
      simp only [fuelItems] at hf
      obtain ⟨f, rfl⟩ : ∃ f, fuel = f + 1 := ⟨fuel - 1, by omega⟩
      rw [ValidElems] at hv
      obtain ⟨hvx, hvt⟩ := hv
      rw [parseItemsF]
      cases t with
      | nil =>
        have hd : dumpItems [x] ++ 93 :: rest = jsonDumps x ++ 93 :: rest := by
          rw [dumpItems]
        rw [hd, (ih f (by omega)).1 x (93 :: rest) hvx (by simp only [fuelItems] at hf; omega)
          (by norm_num [NoDigitHead])]
        norm_num [skipWs_cons_ne 93 rest (by norm_num [isWs])]
      | cons y t3 =>
        have hd : dumpItems (x :: y :: t3) ++ 93 :: rest
            = jsonDumps x ++ (44 :: 32 :: (dumpItems (y :: t3) ++ 93 :: rest)) := by
          rw [dumpItems]
          simp [List.append_assoc]
        rw [hd, (ih f (by omega)).1 x (44 :: 32 :: (dumpItems (y :: t3) ++ 93 :: rest)) hvx
          (by omega) (by norm_num [NoDigitHead])]
        have hrec := (ih f (by omega)).2.1 (y :: t3) rest (by simp) hvt (by omega)
        norm_num [skipWs_cons_ne 44 (32 :: (dumpItems (y :: t3) ++ 93 :: rest)) (by norm_num [isWs]),
          parseItemsF_space, hrec]
  · intro kvs rest hne hv hf
    cases kvs with
    | nil => exact absurd rfl hne
    | cons kv t =>
      obtain ⟨k, v⟩ := kv
      simp only [fuelMembers] at hf
      obtain ⟨f, rfl⟩ : ∃ f, fuel = f + 1 := ⟨fuel - 1, by omega⟩
      rw [ValidMembers] at hv
      obtain ⟨hvk, hvv, hvt⟩ := hv
      rw [parseMembersF]
      cases t with
      | nil =>
        have hd : dumpMembers [(k, v)] ++ 125 :: rest
            = 34 :: (escStr k ++ 34 :: (58 :: 32 :: (jsonDumps v ++ 125 :: rest))) := by
          rw [dumpMembers]
          simp [List.append_assoc]
        rw [hd, skipWs_cons_ne 34 _ (by norm_num [isWs])]
        have hsb := parseStrBody_rt k (58 :: 32 :: (jsonDumps v ++ 125 :: rest)) f hvk (by omega)
        have hval := (ih f (by omega)).1 v (125 :: rest) hvv (by omega) (by norm_num [NoDigitHead])
        norm_num [hsb, skipWs_cons_ne 58 (32 :: (jsonDumps v ++ 125 :: rest)) (by norm_num [isWs]),
          parseValueF_space, hval, skipWs_cons_ne 125 rest (by norm_num [isWs])]
      | cons m2 t3 =>
        have hd : dumpMembers ((k, v) :: m2 :: t3) ++ 125 :: rest
            = 34 :: (escStr k ++ 34 :: (58 :: 32 :: (jsonDumps v
                ++ 44 :: 32 :: (dumpMembers (m2 :: t3) ++ 125 :: rest)))) := by
          rw [dumpMembers]
          simp [List.append_assoc]
        rw [hd, skipWs_cons_ne 34 _ (by norm_num [isWs])]
        have hsb := parseStrBody_rt k
          (58 :: 32 :: (jsonDumps v ++ 44 :: 32 :: (dumpMembers (m2 :: t3) ++ 125 :: rest)))
          f hvk (by omega)
        have hval := (ih f (by omega)).1 v
          (44 :: 32 :: (dumpMembers (m2 :: t3) ++ 125 :: rest)) hvv (by omega)
          (by norm_num [NoDigitHead])
        have hrec := (ih f (by omega)).2.2 (m2 :: t3) rest (by simp) hvt (by omega)
        norm_num [hsb,
          skipWs_cons_ne 58 (32 :: (jsonDumps v ++ 44 :: 32 :: (dumpMembers (m2 :: t3) ++ 125 :: rest)))
            (by norm_num [isWs]),
          parseValueF_space, hval,
          skipWs_cons_ne 44 (32 :: (dumpMembers (m2 :: t3) ++ 125 :: rest)) (by norm_num [isWs]),
          parseMembersF_space, hrec]

theorem escapeCp_len (c : Nat) : 1 ≤ (escapeCp c).length := by
  unfold escapeCp
  split_ifs <;> simp [toHex4]

theorem escStr_len (s : List Nat) : s.length ≤ (escStr s).length := by
  induction s with
  | nil => simp [escStr]
  | cons c t ih =>
    rw [escStr]
    simp only [List.length_append, List.length_cons]
    have := escapeCp_len c
    omega

theorem fuelItems_le (xs : List Json) (h : ∀ x ∈ xs, fuelJ x ≤ (jsonDumps x).length) :
    fuelItems xs ≤ (dumpItems xs).length + 1 := by
  induction xs with
  | nil => simp [fuelItems, dumpItems]
  | cons x t ih =>
    have hx := h x (by simp)
    cases t with
    | nil =>
      simp only [fuelItems, dumpItems]
      omega
    | cons y t3 =>
      have ht := ih (fun z hz => h z (by simp [hz]))
      simp only [fuelItems, dumpItems, List.length_append, List.length_cons] at ht ⊢
      omega

theorem fuelMembers_le (kvs : List (List Nat × Json))
    (h : ∀ m ∈ kvs, fuelJ m.2 ≤ (jsonDumps m.2).length) :
    fuelMembers kvs ≤ (dumpMembers kvs).length + 1 := by
  induction kvs with
  | nil => simp [fuelMembers, dumpMembers]
  | cons m t ih =>
    obtain ⟨k, v⟩ := m
    have hx := h (k, v) (by simp)
    have hk := escStr_len k
    cases t with
    | nil =>
      simp only [fuelMembers, dumpMembers, List.length_append, List.length_cons]
      simp only at hx
      omega
    | cons m2 t3 =>
      have ht := ih (fun z hz => h z (by simp [hz]))
      simp only at hx
      simp only [fuelMembers, dumpMembers, List.length_append, List.length_cons] at ht ⊢
      omega

theorem fuelJ_le_aux : ∀ (n : Nat) (j : Json), sizeOf j ≤ n → fuelJ j ≤ (jsonDumps j).length := by
  intro n
  induction n with
  | zero =>
    intro j h
    exact absurd (json_sizeOf_pos j) (by omega)
  | succ n ihn =>
    intro j hsz
    cases j with
    | str s =>
      simp only [fuelJ, jsonDumps, List.length_append, List.length_cons, List.length_nil]
      have := escStr_len s
      omega
    | num m =>
      simp only [fuelJ, jsonDumps]
      have : 0 < (natToCps m).length := List.length_pos.mpr (natToCps_ne_nil m)
      omega
    | arr xs =>
      have hxs : ∀ x ∈ xs, fuelJ x ≤ (jsonDumps x).length := by
        intro x hxm
        refine ihn x ?_
        have h1 : sizeOf x < sizeOf xs := List.sizeOf_lt_of_mem hxm
        have h2 : sizeOf (Json.arr xs) = 1 + sizeOf xs := by simp
        omega
      have := fuelItems_le xs hxs
      simp only [fuelJ, jsonDumps, List.length_append, List.length_cons, List.length_nil]
      omega
    | obj kvs =>
      have hkvs : ∀ m ∈ kvs, fuelJ m.2 ≤ (jsonDumps m.2).length := by
        intro m hm
        refine ihn m.2 ?_
        have h1 : sizeOf m < sizeOf kvs := List.sizeOf_lt_of_mem hm
        have h2 : sizeOf (Json.obj kvs) = 1 + sizeOf kvs := by simp
        have h3 : sizeOf m.2 < sizeOf m := by
          obtain ⟨k, v⟩ := m
          simp
          try omega
        omega
      have := fuelMembers_le kvs hkvs
      simp only [fuelJ, jsonDumps, List.length_append, List.length_cons, List.length_nil]
      omega

theorem fuelJ_le (j : Json) : fuelJ j ≤ (jsonDumps j).length :=
  fuelJ_le_aux (sizeOf j) j le_rfl

theorem jsonParse_dumps (j : Json) (hv : ValidJson j) : jsonParse (jsonDumps j) = some j := by
  unfold jsonParse
  have h1 := (parse_rt ((jsonDumps j).length + 1)).1 j [] hv
    (le_trans (fuelJ_le j) (by omega)) trivial
  rw [List.append_nil] at h1
  rw [h1]
  simp [skipWs]

theorem validElems_map_str (l : List (List Nat)) (h : ∀ r ∈ l, ValidStr r) :
    ValidElems (l.map Json.str) := by
  induction l with
  | nil => exact trivial
  | cons r t ih =>
    exact ⟨h r (by simp), ih (fun x hx => h x (by simp [hx]))⟩

theorem entryJson_valid (e : Entry) (h1 : ValidStr e.timestamp) (h2 : ValidStr e.peer)
    (h3 : ValidStr e.mailfrom) (h4 : ∀ r ∈ e.rcpttos, ValidStr r)
    (h5 : ValidStr e.body_preview) : ValidJson (entryJson e) := by
  rw [entryJson]
  simp only [ValidJson, ValidMembers, ValidElems]
  exact ⟨by decide, h1, by decide, h2, by decide, h3, by decide, validElems_map_str _ h4,
    by decide, trivial, by decide, h5, trivial⟩

theorem peer_valid (host : List Nat) (port : Nat) (hhost : ValidStr host) :
    ValidStr (host ++ 58 :: natToCps port) := by
  intro c hc
  rcases List.mem_append.mp hc with h | h
  · exact hhost c h
  · rcases List.mem_cons.mp h with rfl | h
    · unfold ValidCp
      omega
    · have := natToCps_digits port c h
      unfold ValidCp
      omega

theorem preview_valid (data : PyData) (hdata : ValidData data) :
    ValidStr (truncPreview (decodeBody data)) := by
  intro c hc
  have hmem : c ∈ decodeBody data := List.take_subset 500 _ hc
  cases data with
  | bytes b => exact utf8DecodeReplace_valid b c hmem
  | text s => exact hdata c hmem

/-- C5: round-trip: parsing the JSON line written for a captured
message succeeds and returns the serialized object itself, whose from,
to and size fields are exactly the original sender, recipient list and
size (JSON decoding is a left inverse of the serialization). -/
theorem c5_logline_roundtrip (ts host : List Nat) (port : Nat) (mf : List Nat)
    (rt : List (List Nat)) (data : PyData)
    (hts : ValidStr ts) (hhost : ValidStr host) (hmf : ValidStr mf)
    (hrt : ∀ r ∈ rt, ValidStr r) (hdata : ValidData data) :
    jsonParse (jsonDumps (entryJson (buildEntry ts host port mf rt data)))
      = some (entryJson (buildEntry ts host port mf rt data))
    ∧ jsonGet (entryJson (buildEntry ts host port mf rt data)) kFrom = some (Json.str mf)
    ∧ jsonGet (entryJson (buildEntry ts host port mf rt data)) kTo
        = some (Json.arr (rt.map Json.str))
    ∧ jsonGet (entryJson (buildEntry ts host port mf rt data)) kSize
        = some (Json.num (pyLen data)) := by
  refine ⟨?_, ?_, ?_, ?_⟩
  · apply jsonParse_dumps
    apply entryJson_valid
    · exact hts
    · exact peer_valid host port hhost
    · exact hmf
    · exact hrt
    · exact preview_valid data hdata
  · simp [jsonGet, entryJson, lookupKey, buildEntry, kTimestamp, kPeer, kFrom]
  · simp [jsonGet, entryJson, lookupKey, buildEntry, kTimestamp, kPeer, kFrom, kTo]
  · simp [jsonGet, entryJson, lookupKey, buildEntry, kTimestamp, kPeer, kFrom, kTo, kSize]

/-- Witness for C5 at a concrete captured message. -/
theorem c5_logline_roundtrip_witness :
    (ValidStr [116] ∧ ValidStr [104] ∧ ValidStr [97] ∧ (∀ r ∈ [[98]], ValidStr r)
      ∧ ValidData (.bytes [72]))
    ∧ (jsonParse (jsonDumps (entryJson (buildEntry [116] [104] 1 [97] [[98]] (.bytes [72]))))
        = some (entryJson (buildEntry [116] [104] 1 [97] [[98]] (.bytes [72])))
      ∧ jsonGet (entryJson (buildEntry [116] [104] 1 [97] [[98]] (.bytes [72]))) kFrom
          = some (Json.str [97])
      ∧ jsonGet (entryJson (buildEntry [116] [104] 1 [97] [[98]] (.bytes [72]))) kTo
          = some (Json.arr ([[98]].map Json.str))
      ∧ jsonGet (entryJson (buildEntry [116] [104] 1 [97] [[98]] (.bytes [72]))) kSize
          = some (Json.num (pyLen (.bytes [72])))) :=
  ⟨⟨by decide, by decide, by decide, by decide, trivial⟩,
   c5_logline_roundtrip [116] [104] 1 [97] [[98]] (.bytes [72])
     (by decide) (by decide) (by decide) (by decide) trivial⟩
